import Mathlib

/-!
Verification of the `ListMenu` pagination and rendering engine
(`src/menu/list_menu.rs`).

Modelling conventions:
* `usize` and `u16` quantities are modelled as `Nat`.  Checked additions and
  `saturating_sub` are modelled by exact `Nat` addition and truncated `Nat`
  subtraction.  Every explicit `as u16` cast in the source keeps its
  truncation as `% 65536`.
* Strings are sequences of characters; indices and lengths count characters
  (the source counts UTF-8 bytes, which agrees on the inputs used here).
* External collaborators (the completer, the editor buffer parsing, the
  painter and the line-wrap estimator from `painting`) are supplied per event
  through an `Env` record, or threaded as the function parameter `w` for the
  wrap estimator `estimate_single_line_wraps`.
-/

namespace ListMenuSpec

/-- A page descriptor of the ledger: `struct Page { size, full }`. -/
structure Page where
  size : Nat
  full : Bool
deriving DecidableEq, Repr

/-- The `Sum<&Page>` impl: fold adding sizes and or-ing `full` flags. -/
def Page.sumOf (l : List Page) : Page :=
  l.foldl (fun acc menu => { size := acc.size + menu.size, full := acc.full || menu.full })
    { size := 0, full := false }

/-- Modelled from the spec: the replacement span of a suggestion inside the
buffer (`Span { start, end }` of the external `Suggestion` type); `stop`
stands for the source field `end`, a Lean keyword. -/
structure Span where
  start : Nat
  stop : Nat
deriving DecidableEq, Repr

/-- Modelled from the spec: the external `Suggestion` type — a candidate
replacement value, an optional description, the span it replaces and a flag
asking for a trailing space on acceptance. -/
structure Suggestion where
  value : String
  description : Option String
  span : Span
  append_whitespace : Bool
deriving DecidableEq, Repr

/-- The menu text style; each field holds the byte sequence emitted by the
corresponding `Style::prefix()` of the external styling library. -/
structure MenuTextStyle where
  text_style : String
  selected_text_style : String
  description_style : String
deriving DecidableEq, Repr

/-- The events of `MenuEvent` that `ListMenu` handles. -/
inductive MenuEvent where
  | activate (updated : Bool)
  | deactivate
  | edit (updated : Bool)
  | nextElement
  | moveDown
  | moveRight
  | previousElement
  | moveUp
  | moveLeft
  | nextPage
  | previousPage
deriving DecidableEq, Repr

/-- The `ListMenu` state.  `markerWidth` records the unicode display width of
`marker` (the source computes it through the external `unicode_width`
crate). -/
structure ListMenu where
  name : String
  color : MenuTextStyle
  page_size : Nat
  marker : String
  markerWidth : Nat
  active : Bool
  values : List Suggestion
  row_position : Nat
  query_size : Option Nat
  max_lines : Nat
  multiline_marker : String
  pages : List Page
  page : Nat
  event : Option MenuEvent
  input : Option String
  only_buffer_difference : Bool
deriving DecidableEq, Repr

/-- The `Default` impl of `ListMenu`. -/
def ListMenu.default : ListMenu :=
  { name := "search_menu"
    color := { text_style := "", selected_text_style := "", description_style := "" }
    page_size := 10
    active := false
    values := []
    row_position := 0
    page := 0
    query_size := none
    marker := "? "
    markerWidth := 2
    max_lines := 5
    multiline_marker := ":::"
    pages := []
    event := none
    input := none
    only_buffer_difference := true }

/-- What the external collaborators supply during one event: the editor
buffer snapshot, the outcome of `parse_selection_char` on the effective
input (`parsedIndex` and whether the remainder is empty), the completer
replies, and the painter's screen geometry. -/
structure Env where
  buffer : String
  parsedIndex : Option Nat
  remainderEmpty : Bool
  totalCompletions : Nat
  windowedValues : List Suggestion
  queriedValues : List Suggestion
  screenWidth : Nat
  screenHeight : Nat

/-! ### String helpers mirroring the Rust std behaviour used by the source -/

/-- Character membership, `str::contains(char)`. -/
def containsChar (s : String) (c : Char) : Bool :=
  s.data.contains c

/-- Split a character list at every newline character. -/
def splitNL : List Char → List Char → List String
  | [], acc => [⟨acc.reverse⟩]
  | '\n' :: rest, acc => ⟨acc.reverse⟩ :: splitNL rest []
  | c :: rest, acc => splitNL rest (c :: acc)

/-- Drop one trailing carriage return, for segments that preceded a `\n`. -/
def stripCR (s : String) : String :=
  if s.data.getLast? = some '\r' then ⟨s.data.dropLast⟩ else s

/-- Rebuild `str::lines()` from the newline split: every segment but the last
was followed by a `\n` and loses a trailing `\r`; a final empty segment
(trailing newline) is dropped. -/
def rustLinesAux : List String → List String
  | [] => []
  | [last] => if last = "" then [] else [last]
  | p :: rest => stripCR p :: rustLinesAux rest

/-- `str::lines()`: split at `\n` or `\r\n`, final line ending optional. -/
def rustLines (s : String) : List String :=
  if s = "" then [] else rustLinesAux (splitNL s.data [])

/-- `count_digits`: the digit-counting loop of the source, with explicit fuel
bounding the iterations of the `while` loop (`n / 10` strictly decreases, so
fuel `n` suffices). -/
def countDigitsLoop : Nat → Nat → Nat
  | 0, _ => 0
  | _ + 1, 0 => 0
  | fuel + 1, n => countDigitsLoop fuel (n / 10) + 1

/-- `fn count_digits(n)`: number of decimal digits, 1 for 0. -/
def count_digits (n : Nat) : Nat :=
  if n = 0 then 1 else countDigitsLoop n n

/-- `fn number_of_lines(entry, max_lines, terminal_columns)`; `w` stands for
the external `estimate_single_line_wraps`.  The source casts the final count
(and, on the single-line branch, the estimate) to `u16`. -/
def number_of_lines (w : String → Nat → Nat) (entry : String) (max_lines : Nat)
    (terminal_columns : Nat) : Nat :=
  if containsChar entry '\n' then
    let total_lines := (rustLines entry).length
    let printable_lines := if total_lines > max_lines then max_lines + 1 else total_lines
    let wrap_lines := ((rustLines entry).take max_lines).foldl
      (fun acc line => acc + w line terminal_columns) 0
    (printable_lines + wrap_lines) % 65536
  else
    1 + (w entry terminal_columns) % 65536

/-! ### Menu functionality (`impl ListMenu` and `impl Menu for ListMenu`) -/

/-- Sum of the sizes of the first `p` ledger entries: the offset into the
logical suggestion list at which page `p` starts.  This is the expression
`self.pages.iter().take(p).sum::<Page>().size` used throughout the source. -/
def pageStartOffset (pages : List Page) (p : Nat) : Nat :=
  (Page.sumOf (pages.take p)).size

/-- `fn total_values`: `self.query_size.unwrap_or(self.values.len())`. -/
def ListMenu.total_values (s : ListMenu) : Nat :=
  s.query_size.getD s.values.length

/-- `fn values_until_current_page`: prefix sum of page sizes through the
current page. -/
def ListMenu.values_until_current_page (s : ListMenu) : Nat :=
  pageStartOffset s.pages (s.page + 1)

/-- `fn update_row_pos`: translate an absolute row selector to a row of the
current page; the assignment carries the source's `as u16` cast. -/
def ListMenu.update_row_pos (s : ListMenu) (new_pos : Option Nat) : ListMenu :=
  match new_pos, s.pages[s.page]? with
  | some row, some page =>
    let values_before_page := pageStartOffset s.pages s.page
    let row := row - values_before_page
    if row < page.size then { s with row_position := row % 65536 } else s
  | _, _ => s

/-- `fn set_actual_page_size`: overwrite the current page's size with the
recomputed printable count, or-ing `full` when the recorded size did not
fit. -/
def ListMenu.set_actual_page_size (s : ListMenu) (printable_entries : Nat) : ListMenu :=
  match s.pages[s.page]? with
  | some page =>
    let newPage : Page :=
      { size := printable_entries
        full := decide (page.size > printable_entries) || page.full }
    { s with pages := s.pages.set s.page newPage }
  | none => s

/-- `fn index`: menu index from the row position. -/
def ListMenu.index (s : ListMenu) : Nat :=
  s.row_position

/-- `fn reset_position`. -/
def ListMenu.reset_position (s : ListMenu) : ListMenu :=
  { s with page := 0, row_position := 0, pages := [] }

/-- Start index of the slice taken by `get_values` in filtered mode. -/
def sliceStart (s : ListMenu) : Nat :=
  pageStartOffset s.pages s.page

/-- End index of the slice taken by `get_values` in filtered mode, after the
clamp `end.min(self.total_values())`. -/
def sliceEnd (s : ListMenu) : Nat :=
  let e := if s.pages.length ≤ s.page then s.page_size + sliceStart s
           else pageStartOffset s.pages (s.page + 1)
  min e s.total_values

/-- `fn get_values`: the cached values themselves in chronological mode, a
page slice of them in filtered mode.  The Rust slice `values[start..end]` is
modelled totally by `take`/`drop`; `sliceEnd s < sliceStart s` is exactly the
condition under which the source indexing panics. -/
def ListMenu.get_values (s : ListMenu) : List Suggestion :=
  match s.query_size with
  | some _ => s.values
  | none =>
    if s.values.isEmpty then s.values
    else (s.values.take (sliceEnd s)).drop (sliceStart s)

/-- `fn get_value`: the suggestion under the cursor. -/
def ListMenu.get_value (s : ListMenu) : Option Suggestion :=
  s.get_values[s.index]?

/-- `fn printable_entries`: count how many cached entries fit in the screen
height minus two, walking the values and accumulating estimated line
counts; the accumulator's `none` records that some entry already
overflowed.  The indicator-width cast to `u16` is kept as `% 65536`. -/
def ListMenu.printable_entries (w : String → Nat → Nat) (s : ListMenu) (ε : Env) : Nat :=
  let available_lines := ε.screenHeight - 2
  (s.get_values.foldl
    (fun (acc : Nat × Option Nat) suggestion =>
      match acc with
      | (lines, none) => (lines, none)
      | (lines, some total_lines) =>
        let new_total_lines := total_lines +
          number_of_lines w suggestion.value s.max_lines
            (ε.screenWidth - (s.markerWidth % 65536 + count_digits lines))
        if new_total_lines < available_lines then (lines + 1, some new_total_lines)
        else (lines, none))
    (0, some 0)).1

/-! ### Rendering (`no_page_msg`, `banner_message`, `create_string`,
`menu_string`) -/

/-- The `nu_ansi_term::ansi::RESET` byte sequence. -/
def RESET : String := "\x1b[0m"

/-- `fn no_page_msg`. -/
def ListMenu.no_page_msg (s : ListMenu) (use_ansi_coloring : Bool) : String :=
  if use_ansi_coloring then s.color.selected_text_style ++ "PAGE NOT FOUND" ++ RESET
  else "PAGE NOT FOUND"

/-- `fn banner_message`: the status bar line under the entries. -/
def ListMenu.banner_message (s : ListMenu) (page : Page) (use_ansi_coloring : Bool) : String :=
  let values_until := s.values_until_current_page - 1
  let value_before :=
    if s.values.isEmpty || s.page == 0 then 0
    else
      let page_size := (s.pages[s.page]?.map Page.size).getD 0
      values_until - page_size + 1
  let full_page := if page.full then "[FULL]" else ""
  let status_bar := "Page " ++ Nat.repr (s.page + 1) ++ ": records " ++
    Nat.repr value_before ++ " - " ++ Nat.repr values_until ++ "  total: " ++
    Nat.repr s.total_values ++ "  " ++ full_page
  if use_ansi_coloring then s.color.selected_text_style ++ status_bar ++ RESET
  else status_bar

/-- `fn end_of_line`. -/
def endOfLine : String := "\r\n"

/-- `fn text_style`: style for a given entry index. -/
def ListMenu.text_style (s : ListMenu) (index : Nat) : String :=
  if index = s.index then s.color.selected_text_style else s.color.text_style

/-- `fn create_string`: one rendered menu line. -/
def ListMenu.create_string (s : ListMenu) (line : String) (description : Option String)
    (index : Nat) (row_number : String) (use_ansi_coloring : Bool) : String :=
  let description :=
    match description with
    | none => ""
    | some desc =>
      if use_ansi_coloring then s.color.description_style ++ "(" ++ desc ++ ") " ++ RESET
      else "(" ++ desc ++ ") "
  if use_ansi_coloring then
    row_number ++ description ++ s.text_style index ++ line ++ RESET ++ endOfLine
  else
    let line_str :=
      if index = s.index then row_number ++ description ++ ">" ++ line.toUpper
      else row_number ++ description ++ line
    line_str ++ endOfLine

/-- `fn menu_string`: rendering of the current page followed by the banner,
or the "PAGE NOT FOUND" sentinel when the page has no ledger entry. -/
def ListMenu.menu_string (s : ListMenu) (use_ansi_coloring : Bool) : String :=
  let values_before_page := pageStartOffset s.pages s.page
  match s.pages[s.page]? with
  | some page =>
    let lines_string := String.join ((s.get_values.take page.size).enum.map
      (fun (p : Nat × Suggestion) =>
        let index := p.1
        let suggestion := p.2
        let line := suggestion.value
        let line :=
          if (rustLines line).length > s.max_lines then
            (((rustLines line).take s.max_lines).foldl
              (fun out_string string => out_string ++ string ++ "\r\n" ++ s.multiline_marker)
              "") ++ "..."
          else line.replace "\n" ("\r\n" ++ s.multiline_marker)
        let row_number := Nat.repr (index + values_before_page) ++ ": "
        s.create_string line suggestion.description index row_number use_ansi_coloring))
    lines_string ++ s.banner_message page use_ansi_coloring
  | none => s.no_page_msg use_ansi_coloring

/-! ### Event transition (`menu_event`, `update_values`,
`update_working_details`) -/

/-- Whether the stored event is an `Edit`, as tested by
`matches!(self.event, Some(MenuEvent::Edit(_)))`. -/
def isEditEvent : Option MenuEvent → Bool
  | some (.edit _) => true
  | _ => false

/-- `fn menu_event`: record the event, flipping `active` on
activation/deactivation. -/
def ListMenu.menu_event (s : ListMenu) (e : MenuEvent) : ListMenu :=
  let s :=
    match e with
    | .activate _ => { s with active := true }
    | .deactivate => { s with active := false, input := none }
    | _ => s
  { s with event := some e }

/-- `fn update_values`: refresh the cache from the completer.  The editor
interaction and `parse_selection_char` happen outside the menu; their
outcome arrives as `ε.parsedIndex` / `ε.remainderEmpty`.  In chronological
mode the computed `skip`/`take` window is forwarded to the completer, whose
reply is `ε.windowedValues`; in filtered mode the reply to the full query is
`ε.queriedValues`. -/
def ListMenu.update_values (s : ListMenu) (ε : Env) : ListMenu :=
  let s := s.update_row_pos ε.parsedIndex
  let s := if isEditEvent s.event && ε.parsedIndex.isNone then s.reset_position else s
  if ε.remainderEmpty then
    { s with query_size := some ε.totalCompletions, values := ε.windowedValues }
  else
    { s with query_size := none, values := ε.queriedValues }

/-- The `MenuEvent::NextPage` arm of `update_working_details` (also the
target of the `MoveNext` re-dispatch; the caller stores `NextPage` in
`s.event` first, as the source does). -/
def handleNextPage (w : String → Nat → Nat) (s : ListMenu) (ε : Env) : ListMenu :=
  if s.values_until_current_page ≤ s.total_values - 1 then
    let s :=
      match s.pages[s.page]? with
      | some page =>
        if page.full then
          let s := { s with row_position := 0, page := s.page + 1 }
          if s.pages.length ≤ s.page then
            { s with pages := s.pages ++ [({ size := s.page_size, full := false } : Page)] }
          else s
        else
          { s with pages := s.pages.set s.page { page with size := page.size + s.page_size } }
      | none => s
    let s := s.update_values ε
    s.set_actual_page_size (s.printable_entries w ε)
  else
    let s := { s with row_position := 0, page := 0 }
    s.update_values ε

/-- The `MenuEvent::PreviousPage` arm of `update_working_details`. -/
def handlePreviousPage (s : ListMenu) (ε : Env) : ListMenu :=
  let s :=
    match s.page with
    | page_num + 1 => { s with page := page_num }
    | 0 => { s with page := s.pages.length - 1 }
  s.update_values ε

/-- `fn update_working_details`: the transition on the stored event.  The
`MoveNext`/`MovePrevious` arms re-dispatch by storing the page event and
handling it in the same call; the event is cleared at the end. -/
def ListMenu.update_working_details (w : String → Nat → Nat) (s : ListMenu) (ε : Env) :
    ListMenu :=
  match s.event with
  | none => s
  | some e =>
    let s' :=
      match e with
      | .activate _ =>
        let s := s.reset_position
        let s := { s with input := if s.only_buffer_difference then some ε.buffer else none }
        let s := s.update_values ε
        { s with pages := s.pages ++ [({ size := s.printable_entries w ε, full := false } : Page)] }
      | .deactivate => { s with active := false, input := none }
      | .edit _ =>
        let s := s.update_values ε
        { s with pages := s.pages ++ [({ size := s.printable_entries w ε, full := false } : Page)] }
      | .nextElement | .moveDown | .moveRight =>
        let new_pos := s.row_position + 1
        match s.pages[s.page]? with
        | some page =>
          if new_pos ≥ page.size % 65536 then
            handleNextPage w { s with event := some .nextPage } ε
          else { s with row_position := new_pos }
        | none => s
      | .previousElement | .moveUp | .moveLeft =>
        match s.row_position with
        | new_pos + 1 => { s with row_position := new_pos }
        | 0 =>
          let pageEntry :=
            match s.page with
            | page + 1 => s.pages[page]?
            | 0 => s.pages[s.pages.length - 1]?
          let s :=
            match pageEntry with
            | some page => { s with row_position := (page.size - 1) % 65536 }
            | none => s
          handlePreviousPage { s with event := some .previousPage } ε
      | .nextPage => handleNextPage w s ε
      | .previousPage => handlePreviousPage s ε
    { s' with event := none }

/-- One full event round trip: the host records the event with `menu_event`
and then calls `update_working_details`. -/
def step (w : String → Nat → Nat) (s : ListMenu) (e : MenuEvent) (ε : Env) : ListMenu :=
  (s.menu_event e).update_working_details w ε

/-- Run a sequence of events with their environments. -/
def runEvents (w : String → Nat → Nat) (s : ListMenu) : List (MenuEvent × Env) → ListMenu
  | [] => s
  | (e, ε) :: rest => runEvents w (step w s e ε) rest

/-- States reachable from a freshly built menu (any configuration of the
builder fields) by any sequence of events. -/
inductive Reachable (w : String → Nat → Nat) : ListMenu → Prop
  | init (s : ListMenu) (hpages : s.pages = []) (hpage : s.page = 0)
      (hrow : s.row_position = 0) (hvals : s.values = [])
      (hq : s.query_size = none) (hact : s.active = false)
      (hev : s.event = none) (hin : s.input = none) : Reachable w s
  | evt (s : ListMenu) (e : MenuEvent) (ε : Env) :
      Reachable w s → Reachable w (step w s e ε)

/-! ### Acceptance (`replace_in_buffer`) -/

/-- Modelled from the spec: the external editor line buffer (`core_editor`),
reduced to the operations the menu consumes — buffer text, insertion point,
length, bounded range replace and cursor set.  The range replace splices
text without touching the insertion point; the menu moves the cursor itself
afterwards. -/
structure LineBuffer where
  lines : String
  insertion_point : Nat
deriving DecidableEq, Repr

/-- Modelled from the spec: buffer length. -/
def LineBuffer.len (lb : LineBuffer) : Nat :=
  lb.lines.data.length

/-- Modelled from the spec: bounded range replace,
`buffer[..start] + replace_with + buffer[end..]`. -/
def LineBuffer.replace_range (lb : LineBuffer) (start stop : Nat) (replace_with : String) :
    LineBuffer :=
  { lb with lines := ⟨lb.lines.data.take start ++ replace_with.data ++ lb.lines.data.drop stop⟩ }

/-- Modelled from the spec: cursor set. -/
def LineBuffer.set_insertion_point (lb : LineBuffer) (pos : Nat) : LineBuffer :=
  { lb with insertion_point := pos }

/-- `fn replace_in_buffer`: splice the selected suggestion over its clamped
span and advance the cursor by the length difference (saturating). -/
def ListMenu.replace_in_buffer (s : ListMenu) (editor : LineBuffer) : LineBuffer :=
  match s.get_value with
  | some suggestion =>
    let buffer_len := editor.len
    let start := min suggestion.span.start buffer_len
    let stop := min suggestion.span.stop buffer_len
    let value :=
      if suggestion.append_whitespace then suggestion.value ++ " " else suggestion.value
    let line_buffer := editor.replace_range start stop value
    let offset := line_buffer.insertion_point + (value.data.length - (stop - start))
    line_buffer.set_insertion_point offset
  | none => editor

/-! ### Claim-side definitions and concrete instances -/

/-- Claim-side counting of printable entries, following the wording of the
specification: walk the values in order, accumulate each entry's estimated
line count (at a width reduced by the indicator width plus the digit count
of the running index) and stop — without counting it — at the first entry
whose inclusion would make the running total reach or exceed the available
height. -/
def countFit (w : String → Nat → Nat) (max_lines markerW screenW avail : Nat) :
    List Suggestion → Nat → Nat → Nat
  | [], lines, _ => lines
  | suggestion :: rest, lines, total =>
    let n := number_of_lines w suggestion.value max_lines
      (screenW - (markerW % 65536 + count_digits lines))
    if total + n < avail then countFit w max_lines markerW screenW avail rest (lines + 1) (total + n)
    else lines

/-- Iterate the `MoveNext` (`NextElement`) event `n` times. -/
def pressMoveNext (w : String → Nat → Nat) (s : ListMenu) (ε : Env) : Nat → ListMenu
  | 0 => s
  | n + 1 => step w (pressMoveNext w s ε n) .nextElement ε

/-- A wrap estimator returning no wraps, used for concrete evaluations. -/
def w0 : String → Nat → Nat := fun _ _ => 0

/-- A wrap estimator reporting 65534 wraps for every line, as a long line
at a narrow width would produce; drives the count past the `u16` range. -/
def wBig : String → Nat → Nat := fun _ _ => 65534

/-- A plain suggestion with the given value. -/
def sug (v : String) : Suggestion :=
  { value := v, description := none, span := { start := 0, stop := 0 }, append_whitespace := false }

/-- A neutral environment: empty buffer, no selector, empty query text,
no completions, a 50 × 5 screen. -/
def envBase : Env :=
  { buffer := "", parsedIndex := none, remainderEmpty := true, totalCompletions := 0,
    windowedValues := [], queriedValues := [], screenWidth := 50, screenHeight := 5 }

/-- Concrete state for the `NextPage`-at-total-zero scenario: an activated
menu whose completer reported zero completions and whose only page, of size
zero, was marked full by a previous `NextPage`. -/
def menuTotalZero : ListMenu :=
  { ListMenu.default with
    active := true, query_size := some 0,
    pages := [{ size := 0, full := true }] }

/-- Concrete state exercising the `u16` cast in `MoveNext`: one page of
65536 entries, all covered. -/
def menuHugePage : ListMenu :=
  { ListMenu.default with
    active := true, query_size := some 65536,
    pages := [{ size := 65536, full := false }] }

/-- Concrete state exercising the `u16` cast in `update_row_pos`: the
current page holds 70000 entries. -/
def menuHugeRow : ListMenu :=
  { ListMenu.default with
    active := true, query_size := some 70000,
    pages := [{ size := 70000, full := false }] }

/-- Concrete state for acceptance: one cached suggestion `"xyz"` replacing
span `[0, 2)`, chronological mode. -/
def menuAccept : ListMenu :=
  { ListMenu.default with
    active := true, query_size := some 1,
    values := [{ value := "xyz", description := none, span := { start := 0, stop := 2 },
                 append_whitespace := false }],
    pages := [{ size := 1, full := false }] }

/-- Editor buffer `"ab"` with the cursor at 0. -/
def editorAB : LineBuffer :=
  { lines := "ab", insertion_point := 0 }

/-- Fresh menu configured with page size 2, for the `get_values` trace. -/
def menuPS2 : ListMenu :=
  { ListMenu.default with page_size := 2 }

/-- Environment of the activation step of the `get_values` trace: empty
query, 100 total completions, a two-entry window. -/
def envActA : Env :=
  { envBase with totalCompletions := 100, windowedValues := [sug "a", sug "b"] }

/-- Environment of the first `NextPage` of the trace: the completer returns
a four-entry window for the grown page. -/
def envNextB : Env :=
  { envBase with
    totalCompletions := 100,
    windowedValues := [sug "a", sug "b", sug "c", sug "d"] }

/-- Environment of the second `NextPage` of the trace: the window for the
new page. -/
def envNextC : Env :=
  { envBase with totalCompletions := 100, windowedValues := [sug "c", sug "d"] }

/-- Environment of the final `Edit` of the trace: the buffer now holds a
row selector followed by query text, and the filtered query returns a
single suggestion. -/
def envEditD : Env :=
  { envBase with
    buffer := "!0a", parsedIndex := some 0, remainderEmpty := false,
    queriedValues := [sug "a"] }

/-- The event trace driving the menu to a filtered state whose page slice
starts beyond the cached values. -/
def traceBadSlice : List (MenuEvent × Env) :=
  [(.activate true, envActA), (.nextPage, envNextB), (.nextPage, envNextC), (.edit true, envEditD)]

/-- The state reached by `traceBadSlice`. -/
def menuBadSlice : ListMenu :=
  runEvents w0 menuPS2 traceBadSlice

/-- A two-entry single-page menu used to check the `MoveNext` cycle. -/
def menuTwo : ListMenu :=
  { ListMenu.default with
    active := true, query_size := some 2,
    pages := [{ size := 2, full := false }] }

/-- Environment of a filtered `Edit` returning one suggestion. -/
def envEditW : Env :=
  { envBase with remainderEmpty := false, queriedValues := [sug "a"] }

/-- A menu reached by a single filtered `Edit` from a fresh menu. -/
def menuEdited : ListMenu :=
  step w0 ListMenu.default (.edit true) envEditW

/-- A menu whose only ledger page is already full. -/
def menuFullPage : ListMenu :=
  { ListMenu.default with pages := [{ size := 1, full := true }] }

/-! ## Helper lemmas -/

theorem elem?_lt_length {α : Type} {l : List α} {i : Nat} {a : α} (h : l[i]? = some a) :
    i < l.length :=
  (List.getElem?_eq_some.mp h).1

theorem elem?_append_lt {α : Type} (l l₂ : List α) {i : Nat} (h : i < l.length) :
    (l ++ l₂)[i]? = l[i]? :=
  List.getElem?_append_left h

theorem elem?_set_of_ne {α : Type} (l : List α) {i j : Nat} (a : α) (h : i ≠ j) :
    (l.set i a)[j]? = l[j]? :=
  List.getElem?_set_ne h

theorem elem?_set_of_lt {α : Type} (l : List α) {i : Nat} (a : α) (h : i < l.length) :
    (l.set i a)[i]? = some a := by
  rw [List.getElem?_set_self']
  simp [List.getElem?_eq_getElem h]

theorem sumOf_size_aux (l : List Page) : ∀ acc : Page,
    (l.foldl (fun acc menu => { size := acc.size + menu.size, full := acc.full || menu.full })
      acc).size = acc.size + (l.map Page.size).sum := by
  induction l with
  | nil => intro acc; simp
  | cons p t ih =>
    intro acc
    simp only [List.foldl_cons, ih, List.map_cons, List.sum_cons]
    omega

theorem Page.sumOf_size (l : List Page) : (Page.sumOf l).size = (l.map Page.size).sum := by
  simpa [Page.sumOf] using sumOf_size_aux l { size := 0, full := false }

theorem pageStartOffset_le_succ (pages : List Page) (p : Nat) :
    pageStartOffset pages p ≤ pageStartOffset pages (p + 1) := by
  simp only [pageStartOffset, Page.sumOf_size, List.take_succ, List.map_append,
    List.sum_append]
  exact Nat.le_add_right _ _

theorem update_row_pos_shape (s : ListMenu) (o : Option Nat) :
    ∃ r, s.update_row_pos o = { s with row_position := r } := by
  cases o with
  | none => exact ⟨s.row_position, rfl⟩
  | some row =>
    cases h : s.pages[s.page]? with
    | none => exact ⟨s.row_position, by simp [ListMenu.update_row_pos, h]⟩
    | some pg =>
      by_cases hlt : row - pageStartOffset s.pages s.page < pg.size
      · exact ⟨(row - pageStartOffset s.pages s.page) % 65536,
          by simp [ListMenu.update_row_pos, h, hlt]⟩
      · exact ⟨s.row_position, by simp [ListMenu.update_row_pos, h, hlt]⟩

theorem update_row_pos_pages (s : ListMenu) (o : Option Nat) :
    (s.update_row_pos o).pages = s.pages := by
  obtain ⟨r, hr⟩ := update_row_pos_shape s o
  rw [hr]

theorem update_row_pos_page (s : ListMenu) (o : Option Nat) :
    (s.update_row_pos o).page = s.page := by
  obtain ⟨r, hr⟩ := update_row_pos_shape s o
  rw [hr]

theorem update_values_of_idx_none (s : ListMenu) (ε : Env) (hidx : ε.parsedIndex = none)
    (hnotedit : isEditEvent s.event = false) :
    s.update_values ε =
      if ε.remainderEmpty then
        { s with query_size := some ε.totalCompletions, values := ε.windowedValues }
      else { s with query_size := none, values := ε.queriedValues } := by
  simp [ListMenu.update_values, hidx, hnotedit, ListMenu.update_row_pos]

theorem update_values_pages_of_no_reset (s : ListMenu) (ε : Env)
    (h : isEditEvent s.event = false ∨ ε.parsedIndex ≠ none) :
    (s.update_values ε).pages = s.pages ∧ (s.update_values ε).page = s.page := by
  obtain ⟨r, hr⟩ := update_row_pos_shape s ε.parsedIndex
  have hcond : (isEditEvent (s.update_row_pos ε.parsedIndex).event &&
      ε.parsedIndex.isNone) = false := by
    rw [hr]
    rcases h with h | h
    · simp [h]
    · cases hi : ε.parsedIndex with
      | none => exact absurd hi h
      | some v => simp [hi]
  simp only [ListMenu.update_values, hcond, Bool.false_eq_true, if_false]
  constructor <;> split <;> rw [hr]

theorem set_actual_page_size_page (s : ListMenu) (n : Nat) :
    (s.set_actual_page_size n).page = s.page := by
  cases h : s.pages[s.page]? <;> simp [ListMenu.set_actual_page_size, h]

theorem set_actual_page_size_row (s : ListMenu) (n : Nat) :
    (s.set_actual_page_size n).row_position = s.row_position := by
  cases h : s.pages[s.page]? <;> simp [ListMenu.set_actual_page_size, h]

/-! ## Claim C1 -/

/-- Claim C1: for every reachable state, the sum of `page.size` over ledger
entries `0..=page_index` (`values_until_current_page`) equals the absolute
offset into the logical suggestion list where the next page starts — the
start offset that `get_values`/`update_values` would compute once the menu
stands on the following page.  The identity is definitional for every
state, so in particular for every reachable one. -/
theorem ledger_next_page_offset (w : String → Nat → Nat) (s : ListMenu)
    (_hreach : Reachable w s) :
    s.values_until_current_page = pageStartOffset s.pages (s.page + 1) ∧
    s.values_until_current_page = sliceStart { s with page := s.page + 1 } :=
  ⟨rfl, rfl⟩

/-- Claim C1 witness: the invariant at a concrete reachable state. -/
theorem ledger_next_page_offset_check :
    ListMenu.default.values_until_current_page
        = pageStartOffset ListMenu.default.pages (ListMenu.default.page + 1) ∧
    ListMenu.default.values_until_current_page
        = sliceStart { ListMenu.default with page := ListMenu.default.page + 1 } :=
  ledger_next_page_offset w0 ListMenu.default
    (Reachable.init _ rfl rfl rfl rfl rfl rfl rfl rfl)

/-! ## Claim C5 -/

/-- Claim C5 counterexample: the source casts the line count to `u16`, so
for a three-line entry truncated at `max_lines = 1` whose first line's wrap
estimate is 65534 (a long line at a narrow width), `number_of_lines`
returns `(2 + 65534) % 2^16 = 0`, not the claimed
`max_lines + 1 + Σ = 65536`. -/
theorem number_of_lines_u16_truncates :
    containsChar "a\nb\nc" '\n' = true ∧
    1 < (rustLines "a\nb\nc").length ∧
    ((rustLines "a\nb\nc").take 1).foldl (fun acc line => acc + wBig line 10) 0 = 65534 ∧
    number_of_lines wBig "a\nb\nc" 1 10 = 0 ∧
    number_of_lines wBig "a\nb\nc" 1 10
      ≠ 1 + 1 + ((rustLines "a\nb\nc").take 1).foldl (fun acc line => acc + wBig line 10) 0 :=
  ⟨by decide, by decide, by decide, by decide, by decide⟩

/-- Claim C5 (amended): for an entry with embedded line breaks and more
lines than `max_lines`, `number_of_lines` returns `max_lines + 1` plus the
sum of the single-line wrap estimates over the first `max_lines` lines at
the given column width, reduced modulo `2^16` — equal to the sum itself
whenever it is below `2^16`; for an entry without a line break it returns
`1` plus the entry's wrap estimate reduced modulo `2^16` — equal to
`1` plus the estimate whenever the estimate is below `2^16` (so `1` for a
non-wrapping single-line entry). -/
theorem number_of_lines_counts (w : String → Nat → Nat) (entry : String)
    (max_lines terminal_columns : Nat) :
    (containsChar entry '\n' = true →
      max_lines < (rustLines entry).length →
      number_of_lines w entry max_lines terminal_columns
        = (max_lines + 1 + ((rustLines entry).take max_lines).foldl
            (fun acc line => acc + w line terminal_columns) 0) % 65536 ∧
      (max_lines + 1 + ((rustLines entry).take max_lines).foldl
          (fun acc line => acc + w line terminal_columns) 0 < 65536 →
        number_of_lines w entry max_lines terminal_columns
          = max_lines + 1 + ((rustLines entry).take max_lines).foldl
              (fun acc line => acc + w line terminal_columns) 0)) ∧
    (containsChar entry '\n' = false →
      number_of_lines w entry max_lines terminal_columns
        = 1 + (w entry terminal_columns) % 65536 ∧
      (w entry terminal_columns < 65536 →
        number_of_lines w entry max_lines terminal_columns
          = 1 + w entry terminal_columns)) := by
  constructor
  · intro hnl hlines
    have heq : number_of_lines w entry max_lines terminal_columns
        = (max_lines + 1 + ((rustLines entry).take max_lines).foldl
            (fun acc line => acc + w line terminal_columns) 0) % 65536 := by
      simp only [number_of_lines, hnl, if_true, gt_iff_lt, hlines, if_pos]
    refine ⟨heq, fun hfit => ?_⟩
    rw [heq]
    exact Nat.mod_eq_of_lt hfit
  · intro hnl
    have heq : number_of_lines w entry max_lines terminal_columns
        = 1 + (w entry terminal_columns) % 65536 := by
      simp only [number_of_lines, hnl, Bool.false_eq_true, if_false]
    refine ⟨heq, fun hfit => ?_⟩
    rw [heq, Nat.mod_eq_of_lt hfit]

/-- Claim C5 witness: a three-line entry truncated at one line counts
`1 + 1 + 0` rendered lines, and a plain entry counts one line. -/
theorem number_of_lines_counts_check :
    number_of_lines w0 "a\nb\nc" 1 10
        = 1 + 1 + ((rustLines "a\nb\nc").take 1).foldl (fun acc line => acc + w0 line 10) 0 ∧
    number_of_lines w0 "ab" 5 10 = 1 + w0 "ab" 10 :=
  ⟨((number_of_lines_counts w0 "a\nb\nc" 1 10).1 (by decide) (by decide)).2 (by decide),
   ((number_of_lines_counts w0 "ab" 5 10).2 (by decide)).2 (by decide)⟩

/-! ## Claim C7 -/

/-- Claim C7 counterexample: with a 70000-entry current page the selector
index 65536 is in range, yet `row_position` becomes `65536 % 2^16 = 0`, not
the translated index itself — the `as u16` cast truncates. -/
theorem update_row_pos_u16_truncates :
    menuHugeRow.pages[menuHugeRow.page]? = some { size := 70000, full := false } ∧
    65536 - pageStartOffset menuHugeRow.pages menuHugeRow.page < 70000 ∧
    (menuHugeRow.update_row_pos (some 65536)).row_position
      ≠ 65536 - pageStartOffset menuHugeRow.pages menuHugeRow.page := by
  refine ⟨rfl, by decide, ?_⟩
  decide

/-- Claim C7 (amended): the selector index is translated by subtracting the
prefix sum of page sizes before the current page (saturating at 0); when the
result lies within the current page's size, `row_position` is set to it
reduced modulo `2^16` — hence to the translated index itself whenever the
index is below `2^16` — and otherwise the state is left unchanged, with no
error in either case. -/
theorem update_row_pos_translates (s : ListMenu) (row : Nat) (pg : Page)
    (hpg : s.pages[s.page]? = some pg) :
    ((row - pageStartOffset s.pages s.page < pg.size →
       (s.update_row_pos (some row)).row_position
         = (row - pageStartOffset s.pages s.page) % 65536 ∧
       (row - pageStartOffset s.pages s.page < 65536 →
         (s.update_row_pos (some row)).row_position
           = row - pageStartOffset s.pages s.page)) ∧
     (¬ row - pageStartOffset s.pages s.page < pg.size →
       s.update_row_pos (some row) = s)) := by
  constructor
  · intro hlt
    constructor
    · simp [ListMenu.update_row_pos, hpg, hlt]
    · intro h16
      simp [ListMenu.update_row_pos, hpg, hlt, Nat.mod_eq_of_lt h16]
  · intro hge
    simp [ListMenu.update_row_pos, hpg, hge]

/-- Claim C7 witness: an in-range selector on page 0 of `menuTwo` lands on
the translated row, and an out-of-range one is silently ignored. -/
theorem update_row_pos_translates_check :
    (menuTwo.update_row_pos (some 1)).row_position = 1 - pageStartOffset menuTwo.pages 0 ∧
    menuTwo.update_row_pos (some 9) = menuTwo := by
  constructor
  · exact ((update_row_pos_translates menuTwo 1 { size := 2, full := false } rfl).1
      (by decide)).2 (by decide)
  · exact (update_row_pos_translates menuTwo 9 { size := 2, full := false } rfl).2 (by decide)

/-! ## Claim C8 -/

/-- Claim C8 counterexample: accepting the suggestion `"xyz"` over span
`[0, 2)` of buffer `"ab"` with the cursor at 0 splices the buffer to
`"xyz"` as the claim states, but leaves the cursor at
`insertion_point + (len(v) - span_len) = 1`, not at `s + len(v) = 3`. -/
theorem replace_in_buffer_cursor_mismatch :
    menuAccept.get_value
      = some { value := "xyz", description := none, span := { start := 0, stop := 2 },
               append_whitespace := false } ∧
    (menuAccept.replace_in_buffer editorAB).lines = "xyz" ∧
    (menuAccept.replace_in_buffer editorAB).insertion_point ≠ 0 + "xyz".data.length := by
  refine ⟨by decide, by decide, ?_⟩
  decide

/-- Claim C8 (amended): with no suggestion under the cursor the buffer is
untouched; otherwise the span is clamped to the buffer bounds and the
buffer becomes `before[..s] + v + before[e..]` for the clamped span; the
cursor moves to the original insertion point plus
`len(v) - (e - s)` (saturating) — which equals `s + len(v)` exactly when the
cursor sat at the clamped span end and `v` is at least as long as the
span. -/
theorem replace_in_buffer_splices (s : ListMenu) (editor : LineBuffer) :
    (s.get_value = none → s.replace_in_buffer editor = editor) ∧
    (∀ sg : Suggestion, s.get_value = some sg → sg.append_whitespace = false →
      (s.replace_in_buffer editor).lines.data
          = editor.lines.data.take (min sg.span.start editor.len)
            ++ sg.value.data
            ++ editor.lines.data.drop (min sg.span.stop editor.len) ∧
      (s.replace_in_buffer editor).insertion_point
          = editor.insertion_point +
            (sg.value.data.length
              - (min sg.span.stop editor.len - min sg.span.start editor.len)) ∧
      (editor.insertion_point = min sg.span.stop editor.len →
        min sg.span.start editor.len ≤ min sg.span.stop editor.len →
        min sg.span.stop editor.len - min sg.span.start editor.len
            ≤ sg.value.data.length →
        (s.replace_in_buffer editor).insertion_point
          = min sg.span.start editor.len + sg.value.data.length)) := by
  constructor
  · intro h
    simp [ListMenu.replace_in_buffer, h]
  · intro sg hsg hws
    have h1 : (s.replace_in_buffer editor).lines.data
        = editor.lines.data.take (min sg.span.start editor.len)
          ++ sg.value.data
          ++ editor.lines.data.drop (min sg.span.stop editor.len) := by
      simp [ListMenu.replace_in_buffer, hsg, hws, LineBuffer.replace_range,
        LineBuffer.set_insertion_point]
    have h2 : (s.replace_in_buffer editor).insertion_point
        = editor.insertion_point +
          (sg.value.data.length
            - (min sg.span.stop editor.len - min sg.span.start editor.len)) := by
      simp [ListMenu.replace_in_buffer, hsg, hws, LineBuffer.replace_range,
        LineBuffer.set_insertion_point]
    refine ⟨h1, h2, ?_⟩
    intro hcur hse hlen
    rw [h2, hcur]
    omega

/-- Claim C8 witness: accepting with the cursor at the span end of a
growing replacement lands at `s + len(v)`, and an empty menu leaves the
buffer alone. -/
theorem replace_in_buffer_splices_check :
    (menuAccept.replace_in_buffer { lines := "ab", insertion_point := 2 }).insertion_point
        = min 0 2 + "xyz".data.length ∧
    ListMenu.default.replace_in_buffer editorAB = editorAB := by
  constructor
  · exact ((replace_in_buffer_splices menuAccept { lines := "ab", insertion_point := 2 }).2
      { value := "xyz", description := none, span := { start := 0, stop := 2 },
        append_whitespace := false } (by decide) (by decide)).2.2
      (by decide) (by decide) (by decide)
  · exact (replace_in_buffer_splices ListMenu.default editorAB).1 (by decide)

/-! ## Claim C6 -/

theorem printFold_none (w : String → Nat → Nat) (maxL mw sw avail : Nat) :
    ∀ (l : List Suggestion) (lines : Nat),
      (l.foldl
        (fun (acc : Nat × Option Nat) suggestion =>
          match acc with
          | (lines, none) => (lines, none)
          | (lines, some total_lines) =>
            let new_total_lines := total_lines +
              number_of_lines w suggestion.value maxL (sw - (mw % 65536 + count_digits lines))
            if new_total_lines < avail then (lines + 1, some new_total_lines)
            else (lines, none))
        (lines, none)).1 = lines := by
  intro l
  induction l with
  | nil => intro lines; rfl
  | cons v t ih => intro lines; exact ih lines

theorem printFold_some (w : String → Nat → Nat) (maxL mw sw avail : Nat) :
    ∀ (l : List Suggestion) (lines total : Nat),
      (l.foldl
        (fun (acc : Nat × Option Nat) suggestion =>
          match acc with
          | (lines, none) => (lines, none)
          | (lines, some total_lines) =>
            let new_total_lines := total_lines +
              number_of_lines w suggestion.value maxL (sw - (mw % 65536 + count_digits lines))
            if new_total_lines < avail then (lines + 1, some new_total_lines)
            else (lines, none))
        (lines, some total)).1 = countFit w maxL mw sw avail l lines total := by
  intro l
  induction l with
  | nil => intro lines total; rfl
  | cons v t ih =>
    intro lines total
    rw [List.foldl_cons]
    by_cases h : total + number_of_lines w v.value maxL (sw - (mw % 65536 + count_digits lines))
        < avail
    · simpa [countFit, h] using ih (lines + 1)
        (total + number_of_lines w v.value maxL (sw - (mw % 65536 + count_digits lines)))
    · simpa [countFit, h] using printFold_none w maxL mw sw avail t lines

/-- Claim C6: `printable_entries` counts values in order, accumulating each
entry's estimated line count at a width reduced by the indicator width plus
the digit count of the running index, and stops — without counting it — at
the first entry whose inclusion would make the running total reach or
exceed the available height, screen height minus 2 (`countFit` spells out
that description). -/
theorem printable_entries_counts (w : String → Nat → Nat) (s : ListMenu) (ε : Env) :
    s.printable_entries w ε
      = countFit w s.max_lines s.markerWidth ε.screenWidth (ε.screenHeight - 2)
          s.get_values 0 0 := by
  simpa [ListMenu.printable_entries] using
    printFold_some w s.max_lines s.markerWidth ε.screenWidth (ε.screenHeight - 2)
      s.get_values 0 0

/-! ## Claim C2 -/

theorem update_values_components (s : ListMenu) (ε : Env) (hidx : ε.parsedIndex = none)
    (hnotedit : isEditEvent s.event = false) :
    (s.update_values ε).page = s.page ∧ (s.update_values ε).row_position = s.row_position ∧
    (s.update_values ε).pages = s.pages := by
  rw [update_values_of_idx_none s ε hidx hnotedit]
  split <;> exact ⟨rfl, rfl, rfl⟩

theorem handleNextPage_wrap (w : String → Nat → Nat) (s : ListMenu) (ε : Env)
    (hidx : ε.parsedIndex = none) (hev : isEditEvent s.event = false)
    (hc : ¬ s.values_until_current_page ≤ s.total_values - 1) :
    (handleNextPage w s ε).page = 0 ∧ (handleNextPage w s ε).row_position = 0 ∧
    (handleNextPage w s ε).pages = s.pages := by
  unfold handleNextPage
  rw [if_neg hc]
  exact update_values_components { s with row_position := 0, page := 0 } ε hidx hev

theorem handleNextPage_advance (w : String → Nat → Nat) (s : ListMenu) (ε : Env) (pg : Page)
    (hidx : ε.parsedIndex = none) (hev : isEditEvent s.event = false)
    (hc : s.values_until_current_page ≤ s.total_values - 1)
    (hpg : s.pages[s.page]? = some pg) (hf : pg.full = true) :
    (handleNextPage w s ε).page = s.page + 1 ∧ (handleNextPage w s ε).row_position = 0 := by
  unfold handleNextPage
  rw [if_pos hc, hpg]
  simp only [hf, if_true]
  split
  · obtain ⟨hp, hr, _⟩ := update_values_components
      ({ s with
         row_position := 0, page := s.page + 1,
         pages := s.pages ++ [({ size := s.page_size, full := false } : Page)] }) ε hidx hev
    rw [set_actual_page_size_page, set_actual_page_size_row, hp, hr]
    exact ⟨rfl, rfl⟩
  · obtain ⟨hp, hr, _⟩ := update_values_components
      ({ s with row_position := 0, page := s.page + 1 }) ε hidx hev
    rw [set_actual_page_size_page, set_actual_page_size_row, hp, hr]
    exact ⟨rfl, rfl⟩

theorem handleNextPage_grow (w : String → Nat → Nat) (s : ListMenu) (ε : Env) (pg : Page)
    (hidx : ε.parsedIndex = none) (hev : isEditEvent s.event = false)
    (hc : s.values_until_current_page ≤ s.total_values - 1)
    (hpg : s.pages[s.page]? = some pg) (hf : pg.full = false) :
    (handleNextPage w s ε).page = s.page := by
  unfold handleNextPage
  rw [if_pos hc, hpg]
  simp only [hf, Bool.false_eq_true, if_false]
  obtain ⟨hp, _, _⟩ := update_values_components
    ({ s with pages := s.pages.set s.page ⟨pg.size + s.page_size, false⟩ }) ε hidx hev
  rw [set_actual_page_size_page]
  exact hp

/-- Claim C2 counterexample: in an activated menu whose completer reported
0 completions the saturating guard `prefix-sum <= total - 1` still holds
(`0 <= 0`), so a `NextPage` with total 0 does not wrap to page 0: it
advances to page 1 and appends a ledger entry. -/
theorem nextPage_total_zero_advances :
    menuTotalZero.active = true ∧ menuTotalZero.total_values = 0 ∧
    envBase.parsedIndex = none ∧
    (step w0 menuTotalZero .nextPage envBase).page = 1 ∧
    (step w0 menuTotalZero .nextPage envBase).pages ≠ menuTotalZero.pages :=
  ⟨rfl, rfl, rfl, by decide, by decide⟩

/-- Claim C2 (amended): for every active state, `NextPage` advances or
grows a page exactly when the prefix sum of page sizes through the current
page is at most total-values minus 1 under saturating subtraction; when
that comparison fails it wraps to page 0, row 0, leaving the ledger
untouched.  When the total is 0 and the prefix sum is also 0 the
saturating comparison still holds, so the menu proceeds (growing or
advancing) instead of wrapping. -/
theorem nextPage_guard (w : String → Nat → Nat) (s : ListMenu) (ε : Env)
    (_hact : s.active = true) (hidx : ε.parsedIndex = none) :
    (¬ s.values_until_current_page ≤ s.total_values - 1 →
      (step w s .nextPage ε).page = 0 ∧ (step w s .nextPage ε).row_position = 0 ∧
      (step w s .nextPage ε).pages = s.pages) ∧
    (s.values_until_current_page ≤ s.total_values - 1 →
      ∀ pg : Page, s.pages[s.page]? = some pg →
        (pg.full = true → (step w s .nextPage ε).page = s.page + 1 ∧
          (step w s .nextPage ε).row_position = 0) ∧
        (pg.full = false → (step w s .nextPage ε).page = s.page)) := by
  have hstep : step w s .nextPage ε
      = { handleNextPage w { s with event := some .nextPage } ε with event := none } := rfl
  constructor
  · intro hc
    rw [hstep]
    obtain ⟨hp, hr, hpg⟩ :=
      handleNextPage_wrap w { s with event := some MenuEvent.nextPage } ε hidx rfl hc
    exact ⟨hp, hr, hpg⟩
  · intro hc pg hpg
    constructor
    · intro hf
      rw [hstep]
      obtain ⟨hp, hr⟩ :=
        handleNextPage_advance w { s with event := some MenuEvent.nextPage } ε pg hidx rfl
          hc hpg hf
      exact ⟨hp, hr⟩
    · intro hf
      rw [hstep]
      exact handleNextPage_grow w { s with event := some MenuEvent.nextPage } ε pg hidx rfl
        hc hpg hf

/-- Claim C2 witness: on a fully shown two-entry page `NextPage` wraps to
page 0, row 0, leaving the ledger untouched. -/
theorem nextPage_guard_check :
    (step w0 menuTwo .nextPage envBase).page = 0 ∧
    (step w0 menuTwo .nextPage envBase).row_position = 0 ∧
    (step w0 menuTwo .nextPage envBase).pages = menuTwo.pages :=
  (nextPage_guard w0 menuTwo envBase rfl rfl).1 (by decide)

/-! ## Claim C4 -/

theorem step_nextElement_inc (w : String → Nat → Nat) (t : ListMenu) (ε : Env) (N : Nat)
    (fl : Bool) (hpg : t.pages = [⟨N, fl⟩]) (hp : t.page = 0) (hN16 : N < 65536)
    (hlt : t.row_position + 1 < N) :
    step w t .nextElement ε = { t with row_position := t.row_position + 1, event := none } := by
  have hsome : t.pages[t.page]? = some ⟨N, fl⟩ := by rw [hpg, hp]; rfl
  have hcond : ¬ t.row_position + 1 ≥ N % 65536 := by
    rw [Nat.mod_eq_of_lt hN16]
    exact Nat.not_le.mpr hlt
  simp only [step, ListMenu.menu_event, ListMenu.update_working_details, hsome]
  rw [if_neg hcond]

theorem step_nextElement_dispatch (w : String → Nat → Nat) (t : ListMenu) (ε : Env) (pg : Page)
    (hpg : t.pages[t.page]? = some pg) (hge : t.row_position + 1 ≥ pg.size % 65536) :
    step w t .nextElement ε
      = { handleNextPage w { t with event := some .nextPage } ε with event := none } := by
  simp only [step, ListMenu.menu_event, ListMenu.update_working_details, hpg]
  rw [if_pos hge]

theorem step_nextElement_wrapN (w : String → Nat → Nat) (t : ListMenu) (ε : Env) (N : Nat)
    (fl : Bool) (hpg : t.pages = [⟨N, fl⟩]) (hp : t.page = 0) (hN : 1 ≤ N) (hN16 : N < 65536)
    (hrow : t.row_position = N - 1) (htot : t.total_values = N) (hidx : ε.parsedIndex = none) :
    (step w t .nextElement ε).row_position = 0 ∧ (step w t .nextElement ε).page = 0 := by
  have hsome : t.pages[t.page]? = some ⟨N, fl⟩ := by rw [hpg, hp]; rfl
  have hge : t.row_position + 1 ≥ (⟨N, fl⟩ : Page).size % 65536 := by
    show t.row_position + 1 ≥ N % 65536
    rw [Nat.mod_eq_of_lt hN16, hrow]
    omega
  have hdisp := step_nextElement_dispatch w t ε ⟨N, fl⟩ hsome hge
  have hvu : ({ t with event := some MenuEvent.nextPage } : ListMenu).values_until_current_page
      = N := by
    simp [ListMenu.values_until_current_page, hpg, hp, pageStartOffset, Page.sumOf]
  have htv : ({ t with event := some MenuEvent.nextPage } : ListMenu).total_values = N := htot
  have hc : ¬ ({ t with event := some MenuEvent.nextPage } : ListMenu).values_until_current_page
      ≤ ({ t with event := some MenuEvent.nextPage } : ListMenu).total_values - 1 := by
    rw [hvu, htv]
    omega
  obtain ⟨hpp, hrr, _⟩ :=
    handleNextPage_wrap w { t with event := some MenuEvent.nextPage } ε hidx rfl hc
  rw [hdisp]
  exact ⟨hrr, hpp⟩

/-- Claim C4 counterexample: with a single page of `N = 65536` entries the
`page.size as u16` cast in `MoveNext` truncates to 0, so the very first
press already wraps to row 0 instead of visiting row 1. -/
theorem moveNext_u16_wraparound :
    menuHugePage.active = true ∧ menuHugePage.pages = [⟨65536, false⟩] ∧
    menuHugePage.total_values = 65536 ∧ menuHugePage.row_position = 0 ∧
    menuHugePage.page = 0 ∧
    (pressMoveNext w0 menuHugePage envBase 1).row_position = 0 ∧
    (pressMoveNext w0 menuHugePage envBase 1).row_position ≠ 1 :=
  ⟨rfl, rfl, rfl, rfl, rfl, by decide, by decide⟩

/-- Claim C4 (amended): for every `1 ≤ N < 2^16` (the range representable
by the `u16` row and the `as u16` page-size cast), in an active menu whose
ledger holds a single page of size `N` covering all `N` entries, starting
at page 0 row 0, the k-th of `N` `MoveNext` presses stands on row `k`
(visiting `1, …, N-1` with no row skipped or repeated), and the N-th press
wraps back to page 0, row 0. -/
theorem moveNext_visits_rows (w : String → Nat → Nat) (s : ListMenu) (ε : Env) (N : Nat)
    (fl : Bool) (hN : 1 ≤ N) (hN16 : N < 65536) (hpages : s.pages = [⟨N, fl⟩])
    (hpage : s.page = 0) (hrow : s.row_position = 0) (htot : s.total_values = N)
    (_hact : s.active = true) (hidx : ε.parsedIndex = none) :
    (∀ k, k < N →
      (pressMoveNext w s ε k).row_position = k ∧ (pressMoveNext w s ε k).page = 0) ∧
    (pressMoveNext w s ε N).row_position = 0 ∧ (pressMoveNext w s ε N).page = 0 := by
  have inv : ∀ k, k < N →
      (pressMoveNext w s ε k).row_position = k ∧
      (pressMoveNext w s ε k).page = 0 ∧
      (pressMoveNext w s ε k).pages = [⟨N, fl⟩] ∧
      (pressMoveNext w s ε k).total_values = N := by
    intro k
    induction k with
    | zero => intro _; exact ⟨hrow, hpage, hpages, htot⟩
    | succ k ih =>
      intro hk
      obtain ⟨hr, hp, hpg, hq⟩ := ih (Nat.lt_of_succ_lt hk)
      have hlt : (pressMoveNext w s ε k).row_position + 1 < N := by rw [hr]; exact hk
      have hstep := step_nextElement_inc w (pressMoveNext w s ε k) ε N fl hpg hp hN16 hlt
      have hunf : pressMoveNext w s ε (k + 1) = step w (pressMoveNext w s ε k) .nextElement ε :=
        rfl
      rw [hunf, hstep]
      exact ⟨by rw [show ({ pressMoveNext w s ε k with
          row_position := (pressMoveNext w s ε k).row_position + 1, event := none } :
          ListMenu).row_position = (pressMoveNext w s ε k).row_position + 1 from rfl, hr],
        hp, hpg, hq⟩
  refine ⟨fun k hk => ⟨(inv k hk).1, (inv k hk).2.1⟩, ?_⟩
  obtain ⟨M, rfl⟩ : ∃ M, N = M + 1 := ⟨N - 1, (Nat.succ_pred_eq_of_pos hN).symm⟩
  obtain ⟨hr, hp, hpg, hq⟩ := inv M (Nat.lt_succ_self M)
  have hrow' : (pressMoveNext w s ε M).row_position = (M + 1) - 1 := by
    rw [hr]
    omega
  have := step_nextElement_wrapN w (pressMoveNext w s ε M) ε (M + 1) fl hpg hp hN hN16
    hrow' hq hidx
  exact this

/-- Claim C4 witness: the two-entry single-page menu visits row 1 and then
wraps to page 0, row 0 on the second press. -/
theorem moveNext_visits_rows_check :
    ((pressMoveNext w0 menuTwo envBase 1).row_position = 1 ∧
     (pressMoveNext w0 menuTwo envBase 1).page = 0) ∧
    (pressMoveNext w0 menuTwo envBase 2).row_position = 0 ∧
    (pressMoveNext w0 menuTwo envBase 2).page = 0 :=
  ⟨(moveNext_visits_rows w0 menuTwo envBase 2 false (by decide) (by decide) rfl rfl rfl rfl
      rfl rfl).1 1 (by decide),
   (moveNext_visits_rows w0 menuTwo envBase 2 false (by decide) (by decide) rfl rfl rfl rfl
      rfl rfl).2⟩

/-! ## Claim C3 -/

theorem set_actual_full_preserved (s : ListMenu) (n i : Nat) (pg : Page)
    (hi : s.pages[i]? = some pg) (hf : pg.full = true) :
    ∃ pg', (s.set_actual_page_size n).pages[i]? = some pg' ∧ pg'.full = true := by
  cases h : s.pages[s.page]? with
  | none =>
    simp only [ListMenu.set_actual_page_size, h]
    exact ⟨pg, hi, hf⟩
  | some pgc =>
    simp only [ListMenu.set_actual_page_size, h]
    by_cases hip : i = s.page
    · subst hip
      have hpe : pgc = pg := Option.some.inj (h.symm.trans hi)
      refine ⟨⟨n, decide (pgc.size > n) || pgc.full⟩,
        elem?_set_of_lt _ _ (elem?_lt_length hi), ?_⟩
      simp [hpe, hf]
    · exact ⟨pg, by rw [elem?_set_of_ne _ _ fun he => hip he.symm]; exact hi, hf⟩

theorem update_values_full_preserved (t : ListMenu) (ε : Env)
    (h : isEditEvent t.event = false ∨ ε.parsedIndex ≠ none)
    (i : Nat) (pg : Page) (hi : t.pages[i]? = some pg) (hf : pg.full = true) :
    ∃ pg', (t.update_values ε).pages[i]? = some pg' ∧ pg'.full = true := by
  obtain ⟨hpages, _⟩ := update_values_pages_of_no_reset t ε h
  exact ⟨pg, by rw [hpages]; exact hi, hf⟩

theorem handleNextPage_full_preserved (w : String → Nat → Nat) (t : ListMenu) (ε : Env)
    (hev : isEditEvent t.event = false) (i : Nat) (pg : Page)
    (hi : t.pages[i]? = some pg) (hf : pg.full = true) :
    ∃ pg', (handleNextPage w t ε).pages[i]? = some pg' ∧ pg'.full = true := by
  unfold handleNextPage
  by_cases hc : t.values_until_current_page ≤ t.total_values - 1
  · rw [if_pos hc]
    cases hpgc : t.pages[t.page]? with
    | none =>
      obtain ⟨pg1, h1, hf1⟩ := update_values_full_preserved t ε (Or.inl hev) i pg hi hf
      exact set_actual_full_preserved _ _ i pg1 h1 hf1
    | some pgc =>
      cases hfl : pgc.full with
      | true =>
        simp only [hfl, if_true]
        split
        · have hi3 : (t.pages ++ [(⟨t.page_size, false⟩ : Page)])[i]? = some pg := by
            rw [elem?_append_lt _ _ (elem?_lt_length hi)]
            exact hi
          obtain ⟨pg1, h1, hf1⟩ := update_values_full_preserved
            ({ t with
               row_position := 0, page := t.page + 1,
               pages := t.pages ++ [(⟨t.page_size, false⟩ : Page)] }) ε
            (Or.inl hev) i pg hi3 hf
          exact set_actual_full_preserved _ _ i pg1 h1 hf1
        · obtain ⟨pg1, h1, hf1⟩ := update_values_full_preserved
            ({ t with row_position := 0, page := t.page + 1 }) ε (Or.inl hev) i pg hi hf
          exact set_actual_full_preserved _ _ i pg1 h1 hf1
      | false =>
        simp only [hfl, Bool.false_eq_true, if_false]
        have hip : t.page ≠ i := by
          intro he
          rw [← he] at hi
          have hpe : pgc = pg := Option.some.inj (hpgc.symm.trans hi)
          rw [hpe, hf] at hfl
          exact Bool.noConfusion hfl
        have hi3 : (t.pages.set t.page ⟨pgc.size + t.page_size, false⟩)[i]? = some pg := by
          rw [elem?_set_of_ne _ _ hip]
          exact hi
        obtain ⟨pg1, h1, hf1⟩ := update_values_full_preserved
          ({ t with pages := t.pages.set t.page ⟨pgc.size + t.page_size, false⟩ }) ε
          (Or.inl hev) i pg hi3 hf
        exact set_actual_full_preserved _ _ i pg1 h1 hf1
  · rw [if_neg hc]
    exact update_values_full_preserved ({ t with row_position := 0, page := 0 }) ε
      (Or.inl hev) i pg hi hf

theorem full_preserved_step (w : String → Nat → Nat) (s : ListMenu) (e : MenuEvent) (ε : Env)
    (he : e = MenuEvent.nextPage ∨ ∃ b, e = MenuEvent.edit b ∧ ε.parsedIndex ≠ none)
    (i : Nat) (pg : Page) (hi : s.pages[i]? = some pg) (hf : pg.full = true) :
    ∃ pg', (step w s e ε).pages[i]? = some pg' ∧ pg'.full = true := by
  rcases he with rfl | ⟨b, rfl, hidx⟩
  · exact handleNextPage_full_preserved w { s with event := some MenuEvent.nextPage } ε rfl
      i pg hi hf
  · obtain ⟨pg1, h1, hf1⟩ := update_values_full_preserved
      ({ s with event := some (MenuEvent.edit b) }) ε (Or.inr hidx) i pg hi hf
    refine ⟨pg1, ?_, hf1⟩
    show ((({ s with event := some (MenuEvent.edit b) } : ListMenu).update_values ε).pages
        ++ [(⟨(({ s with event := some (MenuEvent.edit b) } : ListMenu).update_values
              ε).printable_entries w ε, false⟩ : Page)])[i]? = some pg1
    rw [elem?_append_lt _ _ (elem?_lt_length h1)]
    exact h1

/-- Claim C3: along any sequence of `NextPage` and selector-carrying `Edit`
events (the events that do not trigger a full reset), a ledger entry whose
`full` flag is true keeps a true `full` flag; and `set_actual_page_size`
overwrites the current page's size while only or-ing `full`. -/
theorem full_flag_monotone (w : String → Nat → Nat) :
    (∀ (l : List (MenuEvent × Env)) (s : ListMenu) (i : Nat) (pg : Page),
      (∀ p ∈ l, p.1 = MenuEvent.nextPage ∨
        ∃ b, p.1 = MenuEvent.edit b ∧ p.2.parsedIndex ≠ none) →
      s.pages[i]? = some pg → pg.full = true →
      ∃ pg', (runEvents w s l).pages[i]? = some pg' ∧ pg'.full = true) ∧
    (∀ (t : ListMenu) (n : Nat) (pgc : Page), t.pages[t.page]? = some pgc →
      (t.set_actual_page_size n).pages[t.page]?
        = some ⟨n, decide (pgc.size > n) || pgc.full⟩) := by
  constructor
  · intro l
    induction l with
    | nil => intro s i pg _ hi hf; exact ⟨pg, hi, hf⟩
    | cons p rest ih =>
      intro s i pg hl hi hf
      obtain ⟨e, ε⟩ := p
      obtain ⟨pg1, h1, hf1⟩ := full_preserved_step w s e ε
        (hl (e, ε) (List.mem_cons_self _ _)) i pg hi hf
      exact ih (step w s e ε) i pg1 (fun q hq => hl q (List.mem_cons_of_mem _ hq)) h1 hf1
  · intro t n pgc hpgc
    simp only [ListMenu.set_actual_page_size, hpgc]
    exact elem?_set_of_lt _ _ (elem?_lt_length hpgc)

/-- Claim C3 witness: the full page of `menuFullPage` stays full across a
`NextPage`, and a recomputation to 5 entries keeps the or-ed flag. -/
theorem full_flag_monotone_check :
    (∃ pg', (runEvents w0 menuFullPage [(.nextPage, envBase)]).pages[0]? = some pg' ∧
      pg'.full = true) ∧
    (menuFullPage.set_actual_page_size 5).pages[menuFullPage.page]?
      = some ⟨5, decide ((⟨1, true⟩ : Page).size > 5) || (⟨1, true⟩ : Page).full⟩ := by
  constructor
  · exact (full_flag_monotone w0).1 [(.nextPage, envBase)] menuFullPage 0 ⟨1, true⟩
      (by intro p hp; simp at hp; subst hp; exact Or.inl rfl) rfl rfl
  · exact (full_flag_monotone w0).2 menuFullPage 5 ⟨1, true⟩ rfl

/-! ## Claim C9 -/

/-- Claim C9: after an `Activate` during which the completer reports 0
total completions and returns no suggestions, `menu_string` (without
coloring) renders zero entry lines followed by exactly the banner
`"Page 1: records 0 - 0  total: 0  "` — which contains
`"records 0 - 0  total: 0"`; and whenever the requested page has no ledger
entry, `menu_string` returns the literal `"PAGE NOT FOUND"` instead of
crashing. -/
theorem banner_zero (t : ListMenu) (h1 : t.values = []) (h2 : t.page = 0)
    (h3 : t.query_size = some 0) (h4 : t.pages = [⟨0, false⟩]) :
    t.banner_message ⟨0, false⟩ false = "Page 1: records 0 - 0  total: 0  " := by
  simp [ListMenu.banner_message, ListMenu.values_until_current_page, ListMenu.total_values,
    pageStartOffset, Page.sumOf, h1, h2, h3, h4]
  rfl

theorem menu_string_empty_and_missing (w : String → Nat → Nat) :
    (∀ (s : ListMenu) (b : Bool) (ε : Env),
      ε.parsedIndex = none → ε.remainderEmpty = true → ε.totalCompletions = 0 →
      ε.windowedValues = [] →
      (step w s (.activate b) ε).menu_string false
        = "Page 1: records 0 - 0  total: 0  ") ∧
    (∀ s : ListMenu, s.pages[s.page]? = none → s.menu_string false = "PAGE NOT FOUND") := by
  constructor
  · intro s b ε h1 h2 h3 h4
    obtain ⟨buf, pi, re, tc, wv, qv, sw, sh⟩ := ε
    replace h1 : pi = none := h1
    replace h2 : re = true := h2
    replace h3 : tc = 0 := h3
    replace h4 : wv = [] := h4
    subst h1
    subst h2
    subst h3
    subst h4
    have hmb : (step w s (.activate b) ⟨buf, none, true, 0, [], qv, sw, sh⟩).menu_string false
        = (step w s (.activate b) ⟨buf, none, true, 0, [], qv, sw, sh⟩).banner_message
            ⟨0, false⟩ false := rfl
    rw [hmb]
    exact banner_zero _ rfl rfl rfl rfl
  · intro s h
    simp [ListMenu.menu_string, ListMenu.no_page_msg, h]

/-- Claim C9 witness: the scenario at the default menu and the sentinel at
a menu whose ledger is empty. -/
theorem menu_string_empty_and_missing_check :
    (step w0 ListMenu.default (.activate true) envBase).menu_string false
      = "Page 1: records 0 - 0  total: 0  " ∧
    ListMenu.default.menu_string false = "PAGE NOT FOUND" :=
  ⟨(menu_string_empty_and_missing w0).1 ListMenu.default true envBase rfl rfl rfl rfl,
   (menu_string_empty_and_missing w0).2 ListMenu.default rfl⟩

/-! ## Claim C10 -/

/-- Claim C10 counterexample: a reachable filtered-mode state with a
non-empty cache whose slice start (prefix sum of page sizes before the
current page, here 2) exceeds the clamped end (here 1): at this state the
source's `values[start..end]` indexing panics.  The state arises from
Activate, two NextPage events in chronological mode, and an `Edit` that
carries a row selector (so no reset happens) while the filtered query
returns a single suggestion. -/
theorem get_values_slice_backwards :
    Reachable w0 menuBadSlice ∧ menuBadSlice.query_size = none ∧
    menuBadSlice.values ≠ [] ∧ sliceEnd menuBadSlice < sliceStart menuBadSlice := by
  refine ⟨?_, by decide, by decide, by decide⟩
  show Reachable w0 (step w0 (step w0 (step w0 (step w0 menuPS2 (.activate true) envActA)
    .nextPage envNextB) .nextPage envNextC) (.edit true) envEditD)
  exact Reachable.evt _ _ _ (Reachable.evt _ _ _ (Reachable.evt _ _ _
    (Reachable.evt _ _ _ (Reachable.init _ rfl rfl rfl rfl rfl rfl rfl rfl))))

/-- Claim C10 (amended): in filtered mode with a non-empty cache the
clamped end index never exceeds the cached length, and whenever the start
index — the prefix sum of page sizes before the current page — is at most
the cached length, the slice is well-defined (`start ≤ end`).  The start
hypothesis is necessary: there are reachable filtered states whose start
offset exceeds the cache length, where `get_values` panics in the
source. -/
theorem get_values_slice_bounds (w : String → Nat → Nat) (s : ListMenu)
    (_hreach : Reachable w s) (hq : s.query_size = none) (_hne : s.values ≠ [])
    (hstart : sliceStart s ≤ s.values.length) :
    sliceStart s ≤ sliceEnd s ∧ sliceEnd s ≤ s.values.length := by
  have htv : s.total_values = s.values.length := by simp [ListMenu.total_values, hq]
  constructor
  · unfold sliceEnd
    rw [htv]
    refine le_min ?_ hstart
    split
    · exact Nat.le_add_left _ _
    · exact pageStartOffset_le_succ s.pages s.page
  · unfold sliceEnd
    rw [htv]
    exact min_le_right _ _

/-- Claim C10 witness: the bounds at a concrete reachable filtered
state. -/
theorem get_values_slice_bounds_check :
    sliceStart menuEdited ≤ sliceEnd menuEdited ∧
    sliceEnd menuEdited ≤ menuEdited.values.length :=
  get_values_slice_bounds w0 menuEdited
    (Reachable.evt _ _ _ (Reachable.init _ rfl rfl rfl rfl rfl rfl rfl rfl))
    (by decide) (by decide) (by decide)

end ListMenuSpec
